import Mathlib

/-!
# Verification of the EmulationStation system-catalog loader (`SystemData.cpp`)

This file gives a shallow embedding of the system-catalog loader of the
EmulationStation frontend (`es-app/src/SystemData.cpp`) and proves the
specification claims about it.

Strings are modelled as `List Char` (mirroring `std::string` as a character
sequence), filesystem paths either as raw strings or as component lists, and
the filesystem itself as an explicit finite tree / existence predicate passed
in as data.  Helper code from other translation units (boost.filesystem path
decomposition, `FileData`, `parseGamelist`, …) is modelled where needed; each
such definition says so in its doc comment.
-/

namespace ES

/-! ## `readList` (SystemData.cpp lines 150-165)

The C++ function repeatedly locates, with `find_first_not_of` /
`find_first_of`, the next maximal run of non-delimiter characters and pushes
it onto the result.  We embed it as the equivalent recursion on the character
list: leading delimiters are dropped, then the maximal delimiter-free prefix
is the next token and scanning resumes after it. -/

/-- The default delimiter set `" \t\r\n,"` of `readList`. -/
def defaultDelims : List Char := [' ', '\t', '\r', '\n', ',']

/-- Embedding of `readList(str, delims)`. -/
def readList (str : List Char) (delims : List Char) : List (List Char) :=
  match str with
  | [] => []
  | c :: rest =>
    if c ∈ delims then readList rest delims
    else (c :: rest.takeWhile (fun x => x ∉ delims)) ::
      readList (rest.dropWhile (fun x => x ∉ delims)) delims
  termination_by str.length
  decreasing_by
    · simp
    · simp
      exact Nat.lt_succ_of_le (List.dropWhile_suffix _).length_le

/-- Spec-side description of "the maximal delimiter-free substrings of the
input in left-to-right order": split the input at every delimiter character
(`List.splitOnP`, which keeps empty chunks) and discard the empty chunks. -/
def maximalTokens (str : List Char) (delims : List Char) : List (List Char) :=
  (str.splitOnP (fun c => decide (c ∈ delims))).filter (fun t => !t.isEmpty)

/-! ## Filename decomposition and `isHidden`

`populateFolder` decomposes each directory-entry name with
`boost::filesystem::path::stem` / `::extension`.  Boost (v3 semantics, as
used by this code) splits a filename at its *last* dot, so a simple dotfile
such as `".nes"` has an empty stem and extension `".nes"`; the special names
`"."` and `".."` are their own stem and have no extension. -/

/-- Modelled from `boost::filesystem`: index of the last `'.'` in a
filename, if any. -/
def lastDotIdx (f : List Char) : Option Nat :=
  match f.reverse.findIdx? (fun c => c = '.') with
  | some j => some (f.length - 1 - j)
  | none => none

/-- Modelled from `boost::filesystem::path::stem` (v3 semantics): the
filename up to its last dot; `"."` and `".."` are returned whole. -/
def stemOf (f : List Char) : List Char :=
  if f = ['.'] ∨ f = ['.', '.'] then f
  else
    match lastDotIdx f with
    | none => f
    | some i => f.take i

/-- Modelled from `boost::filesystem::path::extension` (v3 semantics): the
filename from its last dot (dot included); `"."` and `".."` and dot-free
names have no extension. -/
def extensionOf (f : List Char) : List Char :=
  if f = ['.'] ∨ f = ['.', '.'] then []
  else
    match lastDotIdx f with
    | none => []
    | some i => f.drop i

/-- Embedding of `isHidden` (SystemData.cpp lines 69-79): a file is hidden
when the first character of its filename is a dot.  (`std::string
operator[]` at index 0 of an empty name yields the null character, which is
not a dot.) -/
def isHidden (f : List Char) : Bool :=
  match f with
  | [] => false
  | c :: _ => c = '.'

/-! ## The filesystem model and `populateFolder` (SystemData.cpp lines 81-148)

A directory is a finite tree.  Each node records the outcome of the three
filesystem predicates the code consults about it — `fs::is_directory`,
`fs::is_symlink`, and whether the canonical form of the (symlink) path is a
prefix of the path itself (the infinite-recursion test of line 96) — plus
its directory entries, each an entry name with the node it denotes. -/

inductive FSNode where
  | node : (isDir : Bool) → (isSymlink : Bool) → (symlinkRecursive : Bool) →
      (entries : List (List Char × FSNode)) → FSNode

def FSNode.isDir : FSNode → Bool
  | .node d _ _ _ => d

def FSNode.isSymlink : FSNode → Bool
  | .node _ s _ _ => s

def FSNode.symlinkRecursive : FSNode → Bool
  | .node _ _ r _ => r

def FSNode.entries : FSNode → List (List Char × FSNode)
  | .node _ _ _ es => es

/-- The `SystemEnvironmentData` record built by `loadConfig` (fields used by
the claims; the platform-id list takes no part in any claim and is
omitted). -/
structure SystemEnvironmentData where
  mStartPath : List Char
  mSearchExtensions : List (List Char)
  mLaunchCommand : List Char

/-- Modelled from `FileData` (es-app/src/FileData.h): the in-memory file
tree built by the scan.  A node is either a GAME leaf or a FOLDER with its
children (`addChild` appends to the child list); the name is the
directory-entry name of the node. -/
inductive FData where
  | game : List Char → FData
  | folder : List Char → List FData → FData

mutual

/-- Embedding of `SystemData::populateFolder`.  Returns the list of children
the scan adds to `folder`: nothing for a non-directory or for an infinitely
recursive symlink, otherwise one optional child per directory entry, in
directory order. -/
def populateFolder (env : SystemEnvironmentData) (showHidden : Bool) :
    FSNode → List FData
  | .node isDir isSym symRec entries =>
    if !isDir then []
    else if isSym && symRec then []
    else populateEntries env showHidden entries

/-- The loop body of `populateFolder` over the directory entries (lines
107-147): skip empty stems; names whose extension is a search extension
become GAME children unless they are hidden and hidden files are not shown;
remaining directories are scanned recursively and kept as FOLDER children
only when that scan produced at least one child. -/
def populateEntries (env : SystemEnvironmentData) (showHidden : Bool) :
    List (List Char × FSNode) → List FData
  | [] => []
  | (name, sub) :: rest =>
    (if (stemOf name).isEmpty then []
     else if extensionOf name ∈ env.mSearchExtensions then
       if !showHidden && isHidden name then [] else [FData.game name]
     else if sub.isDir then
       (let newFolder := populateFolder env showHidden sub
        if newFolder.length = 0 then [] else [FData.folder name newFolder])
     else []) ++ populateEntries env showHidden rest

end

/-- Spec-side per-entry classification, following the words of claim C1: a
GAME child for an entry with a non-empty stem whose extension is one of the
search extensions (skipped when it is a dot-prefixed hidden file and hidden
files are not shown); a FOLDER child for a remaining directory if and only
if the recursive scan left it with at least one child; no child
otherwise. -/
def claimedChild (env : SystemEnvironmentData) (showHidden : Bool)
    (name : List Char) (sub : FSNode) : Option FData :=
  if (stemOf name).isEmpty then none
  else if extensionOf name ∈ env.mSearchExtensions then
    if !showHidden && isHidden name then none else some (FData.game name)
  else if sub.isDir then
    (let scanned := populateFolder env showHidden sub
     if scanned.isEmpty then none else some (FData.folder name scanned))
  else none

/-! ## Recursive game lists and the count / random-game queries

`getGameCount`, `getDisplayedGameCount` and `getRandomGame` (SystemData.cpp
lines 392-395, 425-440) all go through
`mRootFolder->getFilesRecursive(GAME, displayedOnly)`. -/

mutual

/-- Modelled from the spec: `FileData::getFilesRecursive(GAME,
displayedOnly)` (FileData.cpp is outside the excerpt) collects, in
depth-first order, every GAME descendant of the node; when `displayedOnly`
is set it keeps only games passing the display filter `disp` (the
`FileFilterIndex` of the system, abstracted as a predicate). -/
def getFilesRecursive (disp : FData → Bool) (displayedOnly : Bool) :
    FData → List FData
  | .game n => if !displayedOnly || disp (.game n) then [.game n] else []
  | .folder _ kids => filesRecursiveList disp displayedOnly kids

/-- `getFilesRecursive` over a child list, concatenating in order. -/
def filesRecursiveList (disp : FData → Bool) (displayedOnly : Bool) :
    List FData → List FData
  | [] => []
  | f :: rest =>
    getFilesRecursive disp displayedOnly f ++ filesRecursiveList disp displayedOnly rest

end

/-- Embedding of `SystemData::getGameCount` (lines 392-395): size of the
unfiltered recursive GAME list of the root folder. -/
def getGameCount (disp : FData → Bool) (root : FData) : Nat :=
  (getFilesRecursive disp false root).length

/-- Embedding of `SystemData::getDisplayedGameCount` (lines 437-440): size
of the displayed-only recursive GAME list of the root folder. -/
def getDisplayedGameCount (disp : FData → Bool) (root : FData) : Nat :=
  (getFilesRecursive disp true root).length

/-- Embedding of `SystemData::getRandomGame` (lines 425-435).  `rand` and
`RAND_MAX` enter as the naturals `r` and `R`; the C `double` arithmetic
`round(((double)rand / RAND_MAX) * (total - 1))` is modelled exactly over
`ℚ`.  `list.at(target)` is modelled as `List.get?` at the rounded index. -/
def getRandomGame (disp : FData → Bool) (root : FData) (r R : Nat) :
    Option FData :=
  let list := getFilesRecursive disp true root
  let total := list.length
  if total = 0 then none
  else list.get? (round ((r : ℚ) / (R : ℚ) * ((total : ℚ) - 1))).toNat

/-! ## `getRandomSystem` (SystemData.cpp lines 397-423)

The function first counts the registered systems satisfying
`isGameSystem()` into `unsigned int total`, computes
`round(rand/RAND_MAX * (total - 1))` — where `total - 1` wraps around at
`2^32` when `total` is zero — and then walks `sSystemVector`, decrementing
the target on every game system and returning the one that hits zero.  The
loop body is the only return statement: when it never fires, control falls
off the end of the function (undefined behaviour), which the model renders
as `none`. -/

/-- A registered system, reduced to the only datum `getRandomSystem`
inspects: its name (`setIsGameSystemStatus`, lines 58-64, makes
`isGameSystem()` the comparison of the name against `"retropie"`). -/
structure SysLite where
  name : List Char
  deriving DecidableEq

/-- Embedding of `SystemData::isGameSystem` via `setIsGameSystemStatus`. -/
def isGameSystem (s : SysLite) : Bool := s.name ≠ "retropie".toList

/-- The wraparound modulus of a 32-bit `unsigned int`. -/
def UINT_WRAP : Nat := 2 ^ 32

/-- The selection loop of `getRandomSystem` (lines 409-422). -/
def selectLoop : List SysLite → ℤ → Option SysLite
  | [], _ => none
  | s :: rest, target =>
    if isGameSystem s then
      if target > 0 then selectLoop rest (target - 1) else some s
    else selectLoop rest target

/-- Embedding of `SystemData::getRandomSystem`.  `r` and `R` stand for
`std::rand()` and `RAND_MAX`; the `double` arithmetic is modelled exactly
over `ℚ`, and the `unsigned int` subtraction `total - 1` wraps at
`2^32`. -/
def getRandomSystem (systems : List SysLite) (r R : Nat) : Option SysLite :=
  let total := (systems.filter isGameSystem).length
  let wrapped := (total + UINT_WRAP - 1) % UINT_WRAP
  let target : ℤ := round ((r : ℚ) / (R : ℚ) * (wrapped : ℚ))
  selectLoop systems target

/-! ## Path resolution: `getThemePath` and `getGamelistPath`

Paths are modelled as lists of components; `p / q` is `p ++ [q]`,
`parent_path` is `List.dropLast`, and `fs::exists` is an explicit predicate
passed in as data. -/

/-- The filename component `"theme.xml"`. -/
def themeXml : List Char := "theme.xml".toList

/-- The filename component `"gamelist.xml"`. -/
def gamelistXml : List Char := "gamelist.xml".toList

/-- The environment consulted by `getThemePath`: the filesystem existence
predicate, and `ThemeData::getThemeFromCurrentSet` (es-core, outside the
excerpt), kept abstract as the map from the system theme folder to the
theme-set system path. -/
structure ThemeEnv where
  pathExists : List (List Char) → Bool
  themeFromCurrentSet : List Char → List (List Char)

/-- Embedding of `SystemData::getThemePath` (lines 363-385). -/
def getThemePath (te : ThemeEnv) (rootPath : List (List Char))
    (themeFolder : List Char) : List (List Char) :=
  let localThemePath := rootPath ++ [themeXml]
  if te.pathExists localThemePath then localThemePath
  else
    let setPath := te.themeFromCurrentSet themeFolder
    if te.pathExists setPath then setPath
    else setPath.dropLast.dropLast ++ [themeXml]

/-- The `/etc/emulationstation/gamelists/<name>/gamelist.xml` fallback of
`getGamelistPath`. -/
def etcGamelistPath (name : List Char) : List (List Char) :=
  ["etc".toList, "emulationstation".toList, "gamelists".toList, name, gamelistXml]

/-- The per-system gamelist path under the home directory,
`<home>/.emulationstation/gamelists/<name>/gamelist.xml`. -/
def homeGamelistPath (home : List (List Char)) (name : List Char) :
    List (List Char) :=
  home ++ [".emulationstation".toList, "gamelists".toList, name, gamelistXml]

/-- Embedding of `SystemData::getGamelistPath` (lines 346-361).  The
`fs::create_directories` side effect on the `forWrite` branch does not
change the returned path and is not modelled. -/
def getGamelistPath (ex : List (List Char) → Bool) (home : List (List Char))
    (rootPath : List (List Char)) (name : List Char) (forWrite : Bool) :
    List (List Char) :=
  let p1 := rootPath ++ [gamelistXml]
  if ex p1 then p1
  else
    let p2 := homeGamelistPath home name
    if forWrite || ex p2 then p2
    else etcGamelistPath name

/-- Embedding of `SystemData::hasGamelist` (lines 387-390). -/
def hasGamelist (ex : List (List Char) → Bool) (home : List (List Char))
    (rootPath : List (List Char)) (name : List Char) : Bool :=
  ex (getGamelistPath ex home rootPath name false)

/-! ## The constructor and `loadConfig` (SystemData.cpp lines 18-44, 168-280)

`loadConfig` deletes the registered systems, resolves and parses the XML
config, and for each valid `<system>` element constructs a `SystemData`; a
constructed system whose root folder ended up without children is deleted
instead of registered.  Parsing and the filesystem enter the model as an
explicit `ConfigSource` / `LoadCtx`.  The trailing
`CollectionSystemManager::loadCollectionSystems()` call is outside the
excerpt and outside the spec scope, and is modelled as registering
nothing. -/

/-- The three settings consulted during system construction. -/
structure SettingsModel where
  parseGamelistOnly : Bool
  ignoreGamelist : Bool
  showHiddenFiles : Bool

/-- The ambient state `loadConfig` and the constructor read: the settings,
`getHomePath()` (es-core, abstract), the filesystem (mapping a start path
to its directory tree), and two steps of the constructor that live outside
the excerpt, kept abstract:

* `mergeGamelist name tree` — modelled from the spec: `parseGamelist`
  (Gamelist.cpp) "merges persisted metadata from a gamelist file" of the
  named system into the freshly scanned tree;
* `sortRoot` — `FileData::sort` with the first entry of
  `FileSorts::SortTypes` (FileSorts.cpp), the sort applied to the root
  folder at the end of construction. -/
structure LoadCtx where
  settings : SettingsModel
  homePath : List Char
  fs : List Char → FSNode
  mergeGamelist : List Char → List FData → List FData
  sortRoot : List FData → List FData

/-- A constructed `SystemData`: its identification fields, its environment
data, and the children of its root folder. -/
structure SystemM where
  mName : List Char
  mFullName : List Char
  envData : SystemEnvironmentData
  mThemeFolder : List Char
  mIsCollectionSystem : Bool
  rootChildren : List FData
  mIsGameSystem : Bool

/-- Embedding of the constructor `SystemData::SystemData` (lines 18-44).
For an actual system the root folder is scanned (`populateFolder`) unless
`ParseGamelistOnly` is set, the gamelist is merged (`parseGamelist`) unless
`IgnoreGamelist` is set, and the root is sorted; for a collection system
only the empty root data structure is created.  `setIsGameSystemStatus`
runs in both cases; `loadTheme` touches no field modelled here. -/
def constructSystem (ctx : LoadCtx) (name fullName : List Char)
    (envData : SystemEnvironmentData) (themeFolder : List Char)
    (collectionSystem : Bool) : SystemM :=
  if collectionSystem then
    { mName := name, mFullName := fullName, envData := envData,
      mThemeFolder := themeFolder, mIsCollectionSystem := true,
      rootChildren := [],
      mIsGameSystem := name ≠ "retropie".toList }
  else
    let scanned := if ctx.settings.parseGamelistOnly then []
      else populateFolder envData ctx.settings.showHiddenFiles (ctx.fs envData.mStartPath)
    let merged := if ctx.settings.ignoreGamelist then scanned
      else ctx.mergeGamelist name scanned
    { mName := name, mFullName := fullName, envData := envData,
      mThemeFolder := themeFolder, mIsCollectionSystem := false,
      rootChildren := ctx.sortRoot merged,
      mIsGameSystem := name ≠ "retropie".toList }

/-- A `<system>` element of `es_systems.cfg` as pugixml hands it to the
loop of lines 202-276: `child("...").text().get()` yields the empty string
for a missing child, so every text field is total; the `<theme>` child is
kept optional because it is read with `as_string(name.c_str())`, defaulting
to the system name. -/
structure SystemNode where
  nameText : List Char
  fullnameText : List Char
  pathText : List Char
  extensionText : List Char
  commandText : List Char
  themeText : Option (List Char)

/-- The outcome of resolving and parsing the config file, the three inputs
`loadConfig` distinguishes before reaching the system loop: the file at
`getConfigPath(false)` does not exist, it exists but fails XML parsing, or
it parses — with or without a `<systemList>` child. -/
inductive ConfigSource where
  | missing
  | malformed
  | parsed : Option (List SystemNode) → ConfigSource

/-- The `~` expansion of lines 254-259: a leading tilde is replaced by
`getHomePath()` (the conversion to generic separators on line 251 is the
identity in the component-free string model). -/
def expandHome (home path : List Char) : List Char :=
  match path with
  | '~' :: rest => home ++ rest
  | _ => path

/-- One iteration of the `<system>` loop (lines 202-276): read the text
fields, split the extension list, skip the element when name, path,
extensions or command are empty, construct the system, and drop it again
when its root folder has no children.  (The platform-id loop of lines
216-238 only logs and fills scraper data; no claim concerns it.) -/
def loadSystem (ctx : LoadCtx) (sn : SystemNode) : Option SystemM :=
  if sn.nameText.isEmpty || sn.pathText.isEmpty ||
      (readList sn.extensionText defaultDelims).isEmpty ||
      sn.commandText.isEmpty then
    none
  else
    let envData : SystemEnvironmentData :=
      ⟨expandHome ctx.homePath sn.pathText,
       readList sn.extensionText defaultDelims, sn.commandText⟩
    let newSys := constructSystem ctx sn.nameText sn.fullnameText envData
      (sn.themeText.getD sn.nameText) false
    if newSys.rootChildren.length = 0 then none else some newSys

/-- The outcome of `loadConfig`: its return value, whether
`writeExampleConfig` ran, and the contents of `sSystemVector` afterwards
(the call starts with `deleteSystems()`, so the vector holds exactly the
systems registered by this call). -/
structure LoadResult where
  ok : Bool
  exampleWritten : Bool
  systems : List SystemM

/-- Embedding of `SystemData::loadConfig` (lines 168-280). -/
def loadConfig (ctx : LoadCtx) (cfg : ConfigSource) : LoadResult :=
  match cfg with
  | .missing => ⟨false, true, []⟩
  | .malformed => ⟨false, false, []⟩
  | .parsed none => ⟨false, false, []⟩
  | .parsed (some nodes) => ⟨true, false, nodes.filterMap (loadSystem ctx)⟩

/-! ## Sample data used by the witness theorems -/

/-- A concrete environment: the NES system of the example config. -/
def sampleEnv : SystemEnvironmentData :=
  ⟨"/home/pi/roms/nes".toList, [".nes".toList, ".zip".toList],
    "retroarch %ROM%".toList⟩

/-- A plain file (not a directory, not a symlink). -/
def leafFile : FSNode := .node false false false []

/-- A concrete ROM directory: a game, a hidden game, a subdirectory with a
game, an empty subdirectory, and a file with a non-matching extension. -/
def sampleTree : FSNode :=
  .node true false false
    [("mario.nes".toList, leafFile),
     (".hidden.nes".toList, leafFile),
     ("disksys".toList, .node true false false [("zelda.nes".toList, leafFile)]),
     ("empty".toList, .node true false false []),
     ("notes.txt".toList, leafFile)]

/-- A concrete load context: all settings off, home `/home/pi`, every start
path resolving to the sample ROM directory, gamelist merge and sort both
the identity. -/
def wCtx : LoadCtx :=
  ⟨⟨false, false, false⟩, "/home/pi".toList, fun _ => sampleTree,
    fun _ l => l, fun l => l⟩

/-- A concrete valid `<system>` element. -/
def wNode : SystemNode :=
  ⟨"nes".toList, "Nintendo Entertainment System".toList, "~/roms/nes".toList,
    ".nes .zip".toList, "retroarch %ROM%".toList, none⟩

/-! ## Theorems -/

lemma splitOnP_structure {α : Type} (p : α → Bool) (xs : List α) :
    xs.splitOnP p =
      match xs.dropWhile (fun a => !p a) with
      | [] => [xs]
      | _ :: t => xs.takeWhile (fun a => !p a) :: t.splitOnP p := by
  induction xs with
  | nil => simp [List.splitOnP_nil]
  | cons c rest ih =>
    rw [List.splitOnP_cons]
    by_cases hc : p c
    · simp [hc, List.dropWhile_cons, List.takeWhile_cons]
    · simp only [hc, if_neg, Bool.not_eq_true]
      rw [ih]
      cases hd : rest.dropWhile (fun a => !p a) with
      | nil =>
        simp [List.dropWhile_cons, List.takeWhile_cons, hc, hd]
      | cons d t =>
        simp [List.dropWhile_cons, List.takeWhile_cons, hc, hd]

lemma readList_eq_maximalTokens (str delims : List Char) :
    readList str delims = maximalTokens str delims := by
  have H : ∀ n (s : List Char), s.length = n → readList s delims = maximalTokens s delims := by
    intro n
    induction n using Nat.strong_induction_on with
    | _ n ih =>
    intro str hn
    match str with
    | [] => simp [readList, maximalTokens, List.splitOnP_nil]
    | c :: rest =>
    subst hn
    rw [readList]
    by_cases hc : c ∈ delims
    · rw [if_pos hc]
      rw [ih rest.length (by simp) rest rfl]
      unfold maximalTokens
      rw [List.splitOnP_cons]
      simp [hc]
    · rw [if_neg hc]
      unfold maximalTokens
      rw [splitOnP_structure]
      simp only [decide_not]
      have hdrop : (c :: rest).dropWhile (fun a => !decide (a ∈ delims)) =
          rest.dropWhile (fun a => !decide (a ∈ delims)) := by
        rw [List.dropWhile_cons]
        simp [hc]
      have htake : (c :: rest).takeWhile (fun a => !decide (a ∈ delims)) =
          c :: rest.takeWhile (fun a => !decide (a ∈ delims)) := by
        rw [List.takeWhile_cons]
        simp [hc]
      rw [hdrop, htake]
      cases hd : rest.dropWhile (fun a => !decide (a ∈ delims)) with
      | nil =>
        have hrest : rest.takeWhile (fun a => !decide (a ∈ delims)) = rest := by
          have := List.dropWhile_eq_nil_iff.mp hd
          exact List.takeWhile_eq_self_iff.mpr this
        rw [readList, hrest]
        simp
      | cons d t =>
        -- the head of the dropWhile remainder fails the negated predicate,
        -- so it is a delimiter
        have hdmem : d ∈ delims := by
          have h0 : 0 < (rest.dropWhile (fun a => !decide (a ∈ delims))).length := by
            rw [hd]; simp
          have := List.dropWhile_get_zero_not (fun a => !decide (a ∈ delims)) rest h0
          simp only [List.get_eq_getElem, hd] at this
          simpa using this
        rw [readList]
        rw [if_pos hdmem]
        have hlt : t.length < (c :: rest).length := by
          have hle : (rest.dropWhile (fun a => !decide (a ∈ delims))).length ≤ rest.length :=
            (List.dropWhile_suffix _).length_le
          rw [hd] at hle
          simp at hle ⊢
          omega
        rw [ih t.length hlt t rfl]
        unfold maximalTokens
        simp
  exact H str.length str rfl

lemma readList_mem_spec (str delims : List Char) :
    ∀ t ∈ readList str delims, t ≠ [] ∧ ∀ c ∈ t, c ∉ delims := by
  have H : ∀ n (s : List Char), s.length = n →
      ∀ t ∈ readList s delims, t ≠ [] ∧ ∀ c ∈ t, c ∉ delims := by
    intro n
    induction n using Nat.strong_induction_on with
    | _ n ih =>
    intro str hn
    match str with
    | [] => intro t ht; rw [readList] at ht; cases ht
    | c :: rest =>
    subst hn
    intro t ht
    rw [readList] at ht
    by_cases hc : c ∈ delims
    · rw [if_pos hc] at ht
      exact ih rest.length (by simp) rest rfl t ht
    · rw [if_neg hc] at ht
      rcases List.mem_cons.mp ht with h | h
      · subst h
        refine ⟨by simp, ?_⟩
        intro x hx
        rcases List.mem_cons.mp hx with h | h
        · subst h; exact hc
        · have := List.mem_takeWhile_imp h
          simpa using this
      · have hlt : (rest.dropWhile (fun x => x ∉ delims)).length < (c :: rest).length := by
          have hle : (rest.dropWhile (fun x : Char => x ∉ delims)).length ≤ rest.length :=
            (List.dropWhile_suffix _).length_le
          simp only [List.length_cons]
          omega
        exact ih _ hlt _ rfl t h
  exact H str.length str rfl

lemma readList_all_delims (str delims : List Char)
    (h : ∀ c ∈ str, c ∈ delims) : readList str delims = [] := by
  induction str with
  | nil => rw [readList]
  | cons c rest ih =>
    rw [readList, if_pos (h c (List.mem_cons_self c rest))]
    exact ih (fun x hx => h x (List.mem_cons_of_mem c hx))

/-- Claim C10: every element of the vector returned by `readList` is a
non-empty string containing no delimiter character, the elements are exactly
the maximal delimiter-free substrings of the input in left-to-right order,
and `readList` of a string consisting only of delimiters (or of the empty
string) is the empty vector. -/
theorem readList_tokens_spec (str delims : List Char) :
    (∀ t ∈ readList str delims, t ≠ [] ∧ ∀ c ∈ t, c ∉ delims) ∧
    readList str delims = maximalTokens str delims ∧
    ((∀ c ∈ str, c ∈ delims) → readList str delims = []) :=
  ⟨readList_mem_spec str delims, readList_eq_maximalTokens str delims,
    readList_all_delims str delims⟩

/-- Witness for C10 at the concrete input `".nes .NES"` with the default
delimiters, and at the all-delimiter input `", "`. -/
theorem readList_tokens_spec_witness :
    readList (String.toList ".nes .NES") defaultDelims =
      [String.toList ".nes", String.toList ".NES"] ∧
    readList (String.toList ", ") defaultDelims = [] := by
  constructor
  · have h := (readList_tokens_spec (String.toList ".nes .NES") defaultDelims).2.1
    rw [h]
    decide
  · exact (readList_tokens_spec (String.toList ", ") defaultDelims).2.2 (by decide)

lemma populateEntries_eq_filterMap (env : SystemEnvironmentData) (sh : Bool)
    (l : List (List Char × FSNode)) :
    populateEntries env sh l = l.filterMap (fun e => claimedChild env sh e.1 e.2) := by
  induction l with
  | nil => rw [populateEntries]; rfl
  | cons e rest ih =>
    obtain ⟨name, sub⟩ := e
    rw [populateEntries, ih, List.filterMap_cons]
    unfold claimedChild
    by_cases h1 : (stemOf name).isEmpty
    · simp [h1]
    · simp only [h1, if_false, Bool.false_eq_true, if_neg]
      by_cases h2 : extensionOf name ∈ env.mSearchExtensions
      · by_cases h3 : (!sh && isHidden name) = true
        · simp [h2, h3]
        · simp [h2, h3]
      · by_cases h4 : sub.isDir = true
        · simp only [h2, if_false, h4, if_true]
          by_cases h5 : (populateFolder env sh sub).length = 0
          · have : (populateFolder env sh sub).isEmpty = true := by
              rw [List.isEmpty_iff, ← List.length_eq_zero]
              exact h5
            simp [h5, this]
          · have : (populateFolder env sh sub).isEmpty = false := by
              rw [Bool.eq_false_iff]
              intro hc
              exact h5 (by rwa [List.isEmpty_iff, ← List.length_eq_zero] at hc)
            simp [h5, this]
        · simp [h2, h4]

/-- Claim C1: for every folder whose path is an existing, non-symlink-
recursive directory, `populateFolder` adds exactly one child per directory
entry as classified by `claimedChild`: a GAME child for each entry with a
non-empty stem whose extension is one of the search extensions (hidden
dot-prefixed files are skipped unless the ShowHiddenFiles setting is true),
a FOLDER child for each remaining directory entry if and only if the
recursive scan left it with at least one child, and no child otherwise. -/
theorem populateFolder_spec (env : SystemEnvironmentData) (showHidden : Bool)
    (node : FSNode) (hdir : node.isDir = true)
    (hrec : ¬(node.isSymlink = true ∧ node.symlinkRecursive = true)) :
    populateFolder env showHidden node =
      node.entries.filterMap (fun e => claimedChild env showHidden e.1 e.2) := by
  obtain ⟨d, s, r, es⟩ := node
  simp only [FSNode.isDir] at hdir
  simp only [FSNode.isSymlink, FSNode.symlinkRecursive] at hrec
  rw [populateFolder]
  subst hdir
  have hsr : (s && r) = false := by
    cases s <;> cases r <;> simp_all
  rw [hsr]
  simp only [Bool.not_true, Bool.false_eq_true, if_false, if_neg]
  exact populateEntries_eq_filterMap env showHidden es

/-- Witness for C1: the sample ROM directory is a real, non-symlink
directory, the theorem applies to it, and the scan concretely yields one
GAME child and one non-empty FOLDER child, skipping the hidden file, the
empty subdirectory and the non-matching extension. -/
theorem populateFolder_spec_witness :
    sampleTree.isDir = true ∧
    ¬(sampleTree.isSymlink = true ∧ sampleTree.symlinkRecursive = true) ∧
    populateFolder sampleEnv false sampleTree =
      sampleTree.entries.filterMap
        (fun e => claimedChild sampleEnv false e.1 e.2) ∧
    populateFolder sampleEnv false sampleTree =
      [FData.game "mario.nes".toList,
       FData.folder "disksys".toList [FData.game "zelda.nes".toList]] :=
  ⟨rfl, by decide, populateFolder_spec sampleEnv false sampleTree rfl (by decide),
    by rfl⟩


mutual

theorem getFilesRecursive_true_eq_filter (disp : FData → Bool) :
    (f : FData) → getFilesRecursive disp true f = (getFilesRecursive disp false f).filter disp
  | .game n => by
    rw [getFilesRecursive, getFilesRecursive]
    by_cases h : disp (.game n) <;> simp [h]
  | .folder n kids => by
    rw [getFilesRecursive, getFilesRecursive]
    exact filesRecursiveList_true_eq_filter disp kids

theorem filesRecursiveList_true_eq_filter (disp : FData → Bool) :
    (l : List FData) → filesRecursiveList disp true l = (filesRecursiveList disp false l).filter disp
  | [] => rfl
  | f :: rest => by
    rw [filesRecursiveList, filesRecursiveList, List.filter_append,
      getFilesRecursive_true_eq_filter disp f, filesRecursiveList_true_eq_filter disp rest]

end

/-- Claim C8: `getGameCount` equals the length of the unfiltered recursive
GAME file list of the root folder, `getDisplayedGameCount` equals the length
of the displayed-only recursive GAME file list, and for every system state
`getDisplayedGameCount ≤ getGameCount`. -/
theorem gameCount_spec (disp : FData → Bool) (root : FData) :
    getGameCount disp root = (getFilesRecursive disp false root).length ∧
    getDisplayedGameCount disp root = (getFilesRecursive disp true root).length ∧
    getDisplayedGameCount disp root ≤ getGameCount disp root := by
  refine ⟨rfl, rfl, ?_⟩
  unfold getDisplayedGameCount getGameCount
  rw [getFilesRecursive_true_eq_filter]
  exact List.length_filter_le _ _

/-- Claim C4: `getRandomGame` returns NULL if and only if the recursive
displayed GAME file list of the root folder is empty; otherwise it returns
an element of that list — the index `round(rand/RAND_MAX * (total-1))`
always lies within bounds, so the list access cannot fail. -/
theorem getRandomGame_spec (disp : FData → Bool) (root : FData) (r R : Nat)
    (hR : 0 < R) (hr : r ≤ R) :
    (getRandomGame disp root r R = none ↔ getFilesRecursive disp true root = []) ∧
    ∀ g, getRandomGame disp root r R = some g → g ∈ getFilesRecursive disp true root := by
  unfold getRandomGame
  by_cases h0 : (getFilesRecursive disp true root).length = 0
  · rw [if_pos h0]
    simp [List.length_eq_zero.mp h0]
  · rw [if_neg h0]
    have htot : 1 ≤ (getFilesRecursive disp true root).length := Nat.one_le_iff_ne_zero.mpr h0
    set list := getFilesRecursive disp true root with hlist
    set total := list.length with htotal
    have hx0 : (0 : ℚ) ≤ (r : ℚ) / (R : ℚ) * ((total : ℚ) - 1) := by
      apply mul_nonneg
      · positivity
      · have : (1 : ℚ) ≤ (total : ℚ) := by exact_mod_cast htot
        linarith
    have hx1 : (r : ℚ) / (R : ℚ) * ((total : ℚ) - 1) ≤ (total : ℚ) - 1 := by
      have hle1 : (r : ℚ) / (R : ℚ) ≤ 1 := by
        rw [div_le_one (by exact_mod_cast hR)]
        exact_mod_cast hr
      have hnn : (0 : ℚ) ≤ (total : ℚ) - 1 := by
        have : (1 : ℚ) ≤ (total : ℚ) := by exact_mod_cast htot
        linarith
      nlinarith
    have hround0 : 0 ≤ round ((r : ℚ) / (R : ℚ) * ((total : ℚ) - 1)) := by
      rw [round_eq]
      apply Int.le_floor.mpr
      push_cast
      linarith
    have hroundlt : round ((r : ℚ) / (R : ℚ) * ((total : ℚ) - 1)) < (total : ℤ) := by
      rw [round_eq]
      apply Int.floor_lt.mpr
      push_cast
      linarith
    have hidx : (round ((r : ℚ) / (R : ℚ) * ((total : ℚ) - 1))).toNat < total := by
      omega
    have hget := List.get?_eq_get hidx
    constructor
    · rw [hget]
      constructor
      · intro hc; cases hc
      · intro hc
        exfalso
        have hz : total = 0 := by rw [htotal, hc]; rfl
        omega
    · intro g hg
      rw [hget] at hg
      injection hg with hg2
      rw [← hg2]
      exact List.get_mem list _ hidx



/-- Witness for C4 at a concrete two-game system with `rand = 3`,
`RAND_MAX = 7`. -/
theorem getRandomGame_spec_witness :
    0 < 7 ∧ 3 ≤ 7 ∧
    ((getRandomGame (fun _ => true)
        (FData.folder [] [FData.game ['a'], FData.game ['b']]) 3 7 = none ↔
      getFilesRecursive (fun _ => true) true
        (FData.folder [] [FData.game ['a'], FData.game ['b']]) = []) ∧
     ∀ g, getRandomGame (fun _ => true)
        (FData.folder [] [FData.game ['a'], FData.game ['b']]) 3 7 = some g →
       g ∈ getFilesRecursive (fun _ => true) true
        (FData.folder [] [FData.game ['a'], FData.game ['b']])) :=
  ⟨by decide, by decide,
    getRandomGame_spec (fun _ => true)
      (FData.folder [] [FData.game ['a'], FData.game ['b']]) 3 7
      (by decide) (by decide)⟩


lemma selectLoop_mem (l : List SysLite) (t : ℤ) (h0 : 0 ≤ t)
    (hlt : t < ((l.filter isGameSystem).length : ℤ)) :
    ∃ s ∈ l, isGameSystem s = true ∧ selectLoop l t = some s := by
  induction l generalizing t with
  | nil => simp at hlt; omega
  | cons s rest ih =>
    by_cases hg : isGameSystem s = true
    · by_cases ht : t > 0
      · have hlt2 : t - 1 < ((rest.filter isGameSystem).length : ℤ) := by
          rw [List.filter_cons_of_pos hg] at hlt
          simp at hlt
          omega
        obtain ⟨s2, hmem, hgame, hloop⟩ := ih (t - 1) (by omega) hlt2
        refine ⟨s2, List.mem_cons_of_mem s hmem, hgame, ?_⟩
        rw [selectLoop, if_pos hg, if_pos ht]
        exact hloop
      · refine ⟨s, List.mem_cons_self s rest, hg, ?_⟩
        rw [selectLoop, if_pos hg, if_neg ht]
    · have hlt2 : t < ((rest.filter isGameSystem).length : ℤ) := by
        rw [List.filter_cons_of_neg (by simpa using hg)] at hlt
        exact hlt
      obtain ⟨s2, hmem, hgame, hloop⟩ := ih t h0 hlt2
      refine ⟨s2, List.mem_cons_of_mem s hmem, hgame, ?_⟩
      rw [selectLoop, if_neg hg]
      exact hloop

/-- Counterexample to claim C5: with an empty system vector (a legal state
of `sSystemVector`) the selection loop never returns, control falls off the
end of the non-void function (modelled `none`), and in particular no system
satisfying `isGameSystem()` is returned. -/
theorem getRandomSystem_empty_fallthrough :
    getRandomSystem [] 0 1 = none ∧
    ∀ s : SysLite, ¬(getRandomSystem [] 0 1 = some s ∧ isGameSystem s = true) :=
  ⟨rfl, fun _ h => Option.noConfusion h.1⟩

/-- Bounds for the index computation `round(r/R * w)` shared by the random
selection functions: with `0 < R` and `r ≤ R` the rounded value lies in
`[0, w]`. -/
lemma round_ratio_bounds (r R w : Nat) (hR : 0 < R) (hr : r ≤ R) :
    0 ≤ round ((r : ℚ) / (R : ℚ) * (w : ℚ)) ∧
    round ((r : ℚ) / (R : ℚ) * (w : ℚ)) ≤ (w : ℤ) := by
  have hx0 : (0 : ℚ) ≤ (r : ℚ) / (R : ℚ) * (w : ℚ) := by positivity
  have hle1 : (r : ℚ) / (R : ℚ) ≤ 1 := by
    rw [div_le_one (by exact_mod_cast hR)]
    exact_mod_cast hr
  have hx1 : (r : ℚ) / (R : ℚ) * (w : ℚ) ≤ (w : ℚ) := by
    nlinarith [Nat.cast_nonneg (α := ℚ) w]
  constructor
  · rw [round_eq]
    apply Int.le_floor.mpr
    push_cast
    linarith
  · rw [round_eq]
    have : ((r : ℚ) / (R : ℚ) * (w : ℚ)) + 1 / 2 < (w : ℚ) + 1 := by linarith
    have hfl := Int.floor_lt.mpr (by push_cast; linarith :
      ((r : ℚ) / (R : ℚ) * (w : ℚ)) + 1 / 2 < (((w : ℤ) + 1 : ℤ) : ℚ))
    omega

/-- Claim C5 as amended: whenever `sSystemVector` holds at least one system
satisfying `isGameSystem()` (and `0 ≤ rand ≤ RAND_MAX`), the selection loop
of `getRandomSystem` does return, and it returns a registered system
satisfying `isGameSystem()`; the fall-through after the loop is unreachable
only in that case. -/
theorem getRandomSystem_amended (systems : List SysLite) (r R : Nat)
    (hR : 0 < R) (hr : r ≤ R)
    (hex : ∃ s ∈ systems, isGameSystem s = true) :
    ∃ s ∈ systems, isGameSystem s = true ∧
      getRandomSystem systems r R = some s := by
  have htot1 : 1 ≤ (systems.filter isGameSystem).length := by
    obtain ⟨s, hmem, hgame⟩ := hex
    have hmf : s ∈ systems.filter isGameSystem := List.mem_filter.mpr ⟨hmem, hgame⟩
    have := List.length_pos.mpr (List.ne_nil_of_mem hmf)
    omega
  have hwle : ((systems.filter isGameSystem).length + UINT_WRAP - 1) % UINT_WRAP ≤
      (systems.filter isGameSystem).length - 1 := by
    have h1 : (systems.filter isGameSystem).length + UINT_WRAP - 1 =
        ((systems.filter isGameSystem).length - 1) + UINT_WRAP := by omega
    rw [h1, Nat.add_mod_right]
    exact Nat.mod_le _ _
  have hkey := round_ratio_bounds r R
    (((systems.filter isGameSystem).length + UINT_WRAP - 1) % UINT_WRAP) hR hr
  simp only [getRandomSystem]
  exact selectLoop_mem systems _ hkey.1 (by omega)

/-- Witness for the amended C5: a vector holding the non-game "retropie"
system and the game system "nes"; the loop returns "nes". -/
theorem getRandomSystem_amended_witness :
    ∃ s ∈ [SysLite.mk "retropie".toList, SysLite.mk "nes".toList],
      isGameSystem s = true ∧
      getRandomSystem [SysLite.mk "retropie".toList, SysLite.mk "nes".toList] 1 1 = some s :=
  getRandomSystem_amended [SysLite.mk "retropie".toList, SysLite.mk "nes".toList] 1 1
    (by decide) (by decide) ⟨SysLite.mk "nes".toList, by decide, by decide⟩


/-- Claim C6: `getThemePath` resolves in a fixed three-step order — the
root-folder `theme.xml` if it exists, otherwise the system theme of the
current theme set if that file exists, otherwise the default `theme.xml`
two directory levels above the theme-set system path, returned without any
existence check. -/
theorem getThemePath_spec (te : ThemeEnv) (rootPath : List (List Char))
    (themeFolder : List Char) :
    (te.pathExists (rootPath ++ [themeXml]) = true →
      getThemePath te rootPath themeFolder = rootPath ++ [themeXml]) ∧
    (te.pathExists (rootPath ++ [themeXml]) = false →
      te.pathExists (te.themeFromCurrentSet themeFolder) = true →
      getThemePath te rootPath themeFolder = te.themeFromCurrentSet themeFolder) ∧
    (te.pathExists (rootPath ++ [themeXml]) = false →
      te.pathExists (te.themeFromCurrentSet themeFolder) = false →
      getThemePath te rootPath themeFolder =
        (te.themeFromCurrentSet themeFolder).dropLast.dropLast ++ [themeXml]) := by
  refine ⟨fun h1 => ?_, fun h1 h2 => ?_, fun h1 h2 => ?_⟩ <;>
    simp [getThemePath, h1]
  · simp [h2]
  · simp [h2]

/-- Witness for C6: a theme environment under which no theme file exists,
resolving to the theme-set default two levels up. -/
theorem getThemePath_spec_witness :
    (ThemeEnv.mk (fun _ => false)
        (fun n => ["themes".toList, n, themeXml])).pathExists
      (["roms".toList] ++ [themeXml]) = false ∧
    getThemePath
      (ThemeEnv.mk (fun _ => false) (fun n => ["themes".toList, n, themeXml]))
      ["roms".toList] "nes".toList = ["themes".toList, themeXml] :=
  ⟨rfl, by
    have h := (getThemePath_spec
      (ThemeEnv.mk (fun _ => false) (fun n => ["themes".toList, n, themeXml]))
      ["roms".toList] "nes".toList).2.2 rfl rfl
    rw [h]
    rfl⟩

/-- Claim C7: `getGamelistPath` resolves in a fixed order — the root-folder
`gamelist.xml` if it exists; otherwise the per-system path under the home
`.emulationstation/gamelists` directory whenever `forWrite` is true or that
file exists; the `/etc/emulationstation` fallback only when `forWrite` is
false and neither file exists — and `hasGamelist` holds if and only if the
path returned by `getGamelistPath false` exists. -/
theorem getGamelistPath_spec (ex : List (List Char) → Bool)
    (home : List (List Char)) (rootPath : List (List Char)) (name : List Char) :
    (∀ w, ex (rootPath ++ [gamelistXml]) = true →
      getGamelistPath ex home rootPath name w = rootPath ++ [gamelistXml]) ∧
    (∀ w, ex (rootPath ++ [gamelistXml]) = false →
      (w = true ∨ ex (homeGamelistPath home name) = true) →
      getGamelistPath ex home rootPath name w = homeGamelistPath home name) ∧
    (ex (rootPath ++ [gamelistXml]) = false →
      ex (homeGamelistPath home name) = false →
      getGamelistPath ex home rootPath name false = etcGamelistPath name) ∧
    (hasGamelist ex home rootPath name = true ↔
      ex (getGamelistPath ex home rootPath name false) = true) := by
  refine ⟨fun w h1 => ?_, fun w h1 h2 => ?_, fun h1 h2 => ?_, Iff.rfl⟩
  · simp [getGamelistPath, h1]
  · rcases h2 with h2 | h2
    · subst h2; simp [getGamelistPath, h1]
    · simp [getGamelistPath, h1, h2]
  · simp [getGamelistPath, h1, h2]

/-- Witness for C7: with no file existing anywhere and `forWrite = false`,
the `/etc` fallback is returned; `hasGamelist` agrees with existence of the
resolved path. -/
theorem getGamelistPath_spec_witness :
    ((fun _ => false : List (List Char) → Bool) (["roms".toList] ++ [gamelistXml]) = false) ∧
    getGamelistPath (fun _ => false) ["home".toList] ["roms".toList]
      "nes".toList false = etcGamelistPath "nes".toList :=
  ⟨rfl, (getGamelistPath_spec (fun _ => false) ["home".toList] ["roms".toList]
    "nes".toList).2.2.1 rfl rfl⟩



/-- Claim C2: `loadConfig` returns false in exactly three cases — missing
config file (writing the example config first), XML parse failure, and a
parsed document without a `<systemList>` child — and returns true in every
other case, in particular whatever the individual `<system>` elements
contain. -/
theorem loadConfig_false_iff (ctx : LoadCtx) (cfg : ConfigSource) :
    ((loadConfig ctx cfg).ok = false ↔
      cfg = .missing ∨ cfg = .malformed ∨ cfg = .parsed none) ∧
    ((loadConfig ctx cfg).exampleWritten = true ↔ cfg = .missing) ∧
    (∀ nodes, (loadConfig ctx (.parsed (some nodes))).ok = true) := by
  refine ⟨?_, ?_, fun nodes => rfl⟩ <;>
    rcases cfg with _ | _ | (_ | nodes) <;> simp [loadConfig]

lemma expandHome_ne_nil (home path : List Char) (hh : home ≠ [])
    (hp : path ≠ []) : expandHome home path ≠ [] := by
  unfold expandHome
  split
  · simp [hh]
  · exact hp

/-- Claim C3: after any call to `loadConfig`, every registered system has a
non-empty name, start path and launch command, a non-empty extension list,
and a root folder with at least one child (invalid `<system>` elements are
skipped; constructed systems with childless roots are deleted, not
registered).  `getHomePath()` is assumed non-empty, as it always is. -/
theorem loadConfig_invariant (ctx : LoadCtx) (cfg : ConfigSource)
    (hhome : ctx.homePath ≠ []) :
    ∀ sys ∈ (loadConfig ctx cfg).systems,
      sys.mName ≠ [] ∧ sys.envData.mStartPath ≠ [] ∧
      sys.envData.mLaunchCommand ≠ [] ∧
      sys.envData.mSearchExtensions ≠ [] ∧ sys.rootChildren ≠ [] := by
  intro sys hmem
  rcases cfg with _ | _ | (_ | nodes)
  · simp [loadConfig] at hmem
  · simp [loadConfig] at hmem
  · simp [loadConfig] at hmem
  · simp only [loadConfig] at hmem
    obtain ⟨sn, hsn, heq⟩ := List.mem_filterMap.mp hmem
    rw [loadSystem] at heq
    by_cases hval : (sn.nameText.isEmpty || sn.pathText.isEmpty ||
        (readList sn.extensionText defaultDelims).isEmpty ||
        sn.commandText.isEmpty) = true
    · rw [if_pos hval] at heq
      cases heq
    · rw [if_neg hval] at heq
      simp only [Bool.or_eq_true, not_or, Bool.not_eq_true,
        List.isEmpty_eq_false] at hval
      obtain ⟨⟨⟨hname, hpath⟩, hext⟩, hcmd⟩ := hval
      by_cases hlen : (constructSystem ctx sn.nameText sn.fullnameText
          ⟨expandHome ctx.homePath sn.pathText,
           readList sn.extensionText defaultDelims, sn.commandText⟩
          (sn.themeText.getD sn.nameText) false).rootChildren.length = 0
      · rw [if_pos hlen] at heq
        cases heq
      · rw [if_neg hlen] at heq
        injection heq with heq2
        subst heq2
        refine ⟨by simpa [constructSystem] using hname,
                by simpa [constructSystem] using
                  expandHome_ne_nil ctx.homePath sn.pathText hhome hpath,
                by simpa [constructSystem] using hcmd,
                by simpa [constructSystem] using hext, ?_⟩
        intro hc
        exact hlen (by rw [hc]; rfl)

/-- Witness for C3: a concrete config with one valid system; its
registered systems all satisfy the invariant, and the hypothesis (a
non-empty home path) holds. -/
theorem loadConfig_invariant_witness :
    wCtx.homePath ≠ [] ∧
    (∀ sys ∈ (loadConfig wCtx (ConfigSource.parsed (some [wNode]))).systems,
      sys.mName ≠ [] ∧ sys.envData.mStartPath ≠ [] ∧
      sys.envData.mLaunchCommand ≠ [] ∧
      sys.envData.mSearchExtensions ≠ [] ∧ sys.rootChildren ≠ []) ∧
    (loadConfig wCtx (ConfigSource.parsed (some [wNode]))).systems.length = 1 := by
  refine ⟨by decide, loadConfig_invariant wCtx _ (by decide), ?_⟩
  have hrl : readList wNode.extensionText defaultDelims =
      [".nes".toList, ".zip".toList] := by
    rw [readList_eq_maximalTokens]
    decide
  have hsys : (loadConfig wCtx (ConfigSource.parsed (some [wNode]))).systems =
      List.filterMap (loadSystem wCtx) [wNode] := rfl
  rw [hsys, List.filterMap_cons, loadSystem, hrl]
  decide

/-- Claim C9: for a non-collection system the constructor scans the ROM
directory unless ParseGamelistOnly is set, merges the gamelist unless
IgnoreGamelist is set, and sorts the root folder by the first sort type;
for a collection system none of the three steps runs — the result does not
depend on the settings, the filesystem, or the gamelist/sort hooks — and
only the empty root data structure is created. -/
theorem constructSystem_spec (ctx : LoadCtx) (name fullName : List Char)
    (envData : SystemEnvironmentData) (themeFolder : List Char) :
    ((constructSystem ctx name fullName envData themeFolder true).rootChildren = [] ∧
     ∀ ctx2 : LoadCtx,
       constructSystem ctx name fullName envData themeFolder true =
         constructSystem ctx2 name fullName envData themeFolder true) ∧
    (ctx.settings.parseGamelistOnly = false → ctx.settings.ignoreGamelist = false →
      (constructSystem ctx name fullName envData themeFolder false).rootChildren =
        ctx.sortRoot (ctx.mergeGamelist name
          (populateFolder envData ctx.settings.showHiddenFiles (ctx.fs envData.mStartPath)))) ∧
    (ctx.settings.parseGamelistOnly = true → ctx.settings.ignoreGamelist = false →
      (constructSystem ctx name fullName envData themeFolder false).rootChildren =
        ctx.sortRoot (ctx.mergeGamelist name [])) ∧
    (ctx.settings.parseGamelistOnly = false → ctx.settings.ignoreGamelist = true →
      (constructSystem ctx name fullName envData themeFolder false).rootChildren =
        ctx.sortRoot (populateFolder envData ctx.settings.showHiddenFiles
          (ctx.fs envData.mStartPath))) ∧
    (ctx.settings.parseGamelistOnly = true → ctx.settings.ignoreGamelist = true →
      (constructSystem ctx name fullName envData themeFolder false).rootChildren =
        ctx.sortRoot []) := by
  refine ⟨⟨rfl, fun ctx2 => rfl⟩, fun h1 h2 => ?_, fun h1 h2 => ?_,
    fun h1 h2 => ?_, fun h1 h2 => ?_⟩ <;>
    simp [constructSystem, h1, h2]

/-- Witness for C9 at a concrete context with both settings off, showing
the scan-merge-sort composition on the sample tree, and the
context-independent empty collection root. -/
theorem constructSystem_spec_witness :
    wCtx.settings.parseGamelistOnly = false ∧
    wCtx.settings.ignoreGamelist = false ∧
    (constructSystem wCtx "nes".toList "NES".toList sampleEnv "nes".toList
        false).rootChildren =
      wCtx.sortRoot (wCtx.mergeGamelist "nes".toList
        (populateFolder sampleEnv wCtx.settings.showHiddenFiles
          (wCtx.fs sampleEnv.mStartPath))) ∧
    (constructSystem wCtx "favorites".toList "Favorites".toList sampleEnv
        "favorites".toList true).rootChildren = [] :=
  ⟨rfl, rfl,
    (constructSystem_spec wCtx "nes".toList "NES".toList sampleEnv
      "nes".toList).2.1 rfl rfl,
    (constructSystem_spec wCtx "favorites".toList "Favorites".toList sampleEnv
      "favorites".toList).1.1⟩

end ES
